import Mathlib

/-!
Verification of the product-review-automation repository.

Python strings are modelled as `List Char` (`PyStr`); every operation the
source uses (`str.split`, `str.join`, `str.strip`, `str.upper`, `str.lower`,
substring containment, `str.split(sep, 1)[-1]`) is embedded as an executable
function on `List Char`.  Python `dict`s (insertion ordered, value replaced in
place on re-assignment) are modelled as association lists with an in-place
update operation.
-/

/-- Python strings, modelled as their character sequences. -/
abbrev PyStr := List Char

/-- The whitespace characters stripped by Python `str.strip()` (ASCII range). -/
def isSpace (c : Char) : Bool :=
  c = ' ' || c = '\t' || c = '\n' || c = '\r' || c = '\x0b' || c = '\x0c'

/-- The ASCII case table: lowercase letter paired with its uppercase form. -/
def casePairs : List (Char × Char) :=
  [('a', 'A'), ('b', 'B'), ('c', 'C'), ('d', 'D'), ('e', 'E'), ('f', 'F'),
   ('g', 'G'), ('h', 'H'), ('i', 'I'), ('j', 'J'), ('k', 'K'), ('l', 'L'),
   ('m', 'M'), ('n', 'N'), ('o', 'O'), ('p', 'P'), ('q', 'Q'), ('r', 'R'),
   ('s', 'S'), ('t', 'T'), ('u', 'U'), ('v', 'V'), ('w', 'W'), ('x', 'X'),
   ('y', 'Y'), ('z', 'Z')]

/-- `str.upper` on a single character (ASCII letters; all other characters are
left unchanged, as for the characters appearing in this repository). -/
def pyUpperChar (c : Char) : Char :=
  ((casePairs.find? (fun q => q.1 = c)).map Prod.snd).getD c

/-- `str.lower` on a single character (ASCII letters). -/
def pyLowerChar (c : Char) : Char :=
  ((casePairs.find? (fun q => q.2 = c)).map Prod.fst).getD c

/-- `line.upper()`. -/
def pyUpper (s : PyStr) : PyStr := s.map pyUpperChar

/-- `marker.lower()`. -/
def pyLower (s : PyStr) : PyStr := s.map pyLowerChar

/-- Remove the trailing run of whitespace characters. -/
def dropEndSpace : PyStr → PyStr
  | [] => []
  | c :: cs =>
    let r := dropEndSpace cs
    if r.isEmpty && isSpace c then [] else c :: r

/-- Python `str.strip()`: drop leading and trailing whitespace. -/
def pyStrip (s : PyStr) : PyStr := dropEndSpace (s.dropWhile isSpace)

/-- Python `str.split(c)` for a single-character separator: always returns at
least one (possibly empty) piece, and empty pieces are kept. -/
def splitOnChar (c : Char) : PyStr → List PyStr
  | [] => [[]]
  | x :: xs =>
    let r := splitOnChar c xs
    if x = c then [] :: r
    else
      match r with
      | [] => [[x]]
      | y :: ys => (x :: y) :: ys

/-- Python `'\n'.join(pieces)`. -/
def joinNL : List PyStr → PyStr
  | [] => []
  | [x] => x
  | x :: y :: rest => x ++ '\n' :: joinNL (y :: rest)

/-- `s.startswith(p)` at the head of the list. -/
def startsWithSeq : PyStr → PyStr → Bool
  | _, [] => true
  | [], _ :: _ => false
  | x :: xs, p :: ps => x = p && startsWithSeq xs ps

/-- Python substring containment `pat in s`. -/
def hasSub (pat : PyStr) : PyStr → Bool
  | [] => startsWithSeq [] pat
  | x :: xs => startsWithSeq (x :: xs) pat || hasSub pat xs

/-- The suffix of `s` after the first occurrence of `c`, if `c` occurs. -/
def afterFirst (c : Char) : PyStr → Option PyStr
  | [] => none
  | x :: xs => if x = c then some xs else afterFirst c xs

/-- Python `line.split(c, 1)[-1]`: the part after the first occurrence of the
separator, or the whole string when the separator does not occur. -/
def pySplit1Last (c : Char) (s : PyStr) : PyStr := (afterFirst c s).getD s

/-- Python `dict` assignment `d[k] = v`: replace in place, else append. -/
def dictInsert (d : List (PyStr × PyStr)) (k v : PyStr) : List (PyStr × PyStr) :=
  match d with
  | [] => [(k, v)]
  | (k', v') :: rest => if k' = k then (k, v) :: rest else (k', v') :: dictInsert rest k v

/-- `f"[{marker}]"`. -/
def bracketed (m : PyStr) : PyStr := '[' :: (m ++ [']'])

/-- The fixed marker enumeration of `_parse_script_sections`. -/
def section_markers : List PyStr :=
  ["HOOK".data, "INTRO".data, "FEATURES".data, "PROS".data, "CONS".data,
   "VERDICT".data, "CTA".data]

/-- `f"[{marker}]" in line.upper()`. -/
def markerIn (line m : PyStr) : Bool := hasSub (bracketed m) (pyUpper line)

/-- The inner `for marker in section_markers: if ...: break` loop: the first
marker (in enumeration order) whose bracketed form occurs in the uppercased
line. -/
def findMarker (line : PyStr) : Option PyStr :=
  section_markers.find? (markerIn line)

/-- Loop state of `_parse_script_sections`: the mapping built so far, the
current section key, and the accumulated line buffer. -/
structure ParseState where
  sections : List (PyStr × PyStr)
  current_section : PyStr
  current_text : List PyStr

/-- The "save previous section" block: flush the buffer (joined by newline and
stripped) under the current key, only when the buffer is non-empty. -/
def flushSections (st : ParseState) : List (PyStr × PyStr) :=
  if st.current_text.isEmpty then st.sections
  else dictInsert st.sections st.current_section (pyStrip (joinNL st.current_text))

/-- One iteration of the outer loop of `_parse_script_sections` on one line. -/
def parseStep (st : ParseState) (line : PyStr) : ParseState :=
  match findMarker line with
  | some marker =>
    let remaining := pyStrip (pySplit1Last ']' line)
    { sections := flushSections st
      current_section := pyLower marker
      current_text := if remaining.isEmpty then [] else [remaining] }
  | none =>
    if (pyStrip line).isEmpty then st
    else { st with current_text := st.current_text ++ [line] }

/-- `ScriptGenerator._parse_script_sections`. -/
def _parse_script_sections (script_text : PyStr) : List (PyStr × PyStr) :=
  flushSections ((splitOnChar '\n' script_text).foldl parseStep
    { sections := [], current_section := "intro".data, current_text := [] })

/-! ### Invariants of the parser -/

/-- The keys that can ever appear in the parser output: the default bucket
`"intro"` together with the lowercased marker tokens. -/
def allowed_keys : List PyStr :=
  ["hook".data, "intro".data, "features".data, "pros".data, "cons".data,
   "verdict".data, "cta".data]

/-- Shape of every value stored in the section mapping: it is stripped,
non-empty, and none of its lines is blank. -/
def GoodVal (v : PyStr) : Prop :=
  pyStrip v = v ∧ v ≠ [] ∧ ∀ l ∈ splitOnChar '\n' v, pyStrip l ≠ []

/-- Shape of the line buffer: every buffered piece is non-blank and free of
newline characters. -/
def GoodBuf (ts : List PyStr) : Prop := ∀ t ∈ ts, pyStrip t ≠ [] ∧ '\n' ∉ t

/-- Invariant carried through the parsing loop. -/
def GoodState (st : ParseState) : Prop :=
  (∀ kv ∈ st.sections, kv.1 ∈ allowed_keys ∧ GoodVal kv.2) ∧
  st.current_section ∈ allowed_keys ∧ GoodBuf st.current_text

/-! ### The example script fixture and the other components -/

def EXAMPLE_SCRIPT_HEBREW : String :=
  "\n[HOOK]\nבקבוק מים ב-28 דולר שמכר יותר מכל Stanley ו-Hydro Flask ביחד? בואו נבדוק אם זה באמת שווה את ההייפ.\n\n[INTRO]\nהיי, מה קורה? היום אנחנו בודקים את Owala FreeSip - הבקבוק שכבש את טיקטוק עם 272 מיליון צפיות. אני אגלה לכם בדיוק למה כולם משתגעים עליו, ומה הדברים שאף אחד לא מספר לכם.\n\n[FEATURES]\nאז מה מיוחד פה? הפיצ\u0027ר המטורף הוא ה-FreeSip - פתח כפול שמאפשר לשתות גם מקש וגם לגמוע ישירות. בלי להחליף מכסים, בלי להתעסק. פשוט לוחצים על הכפתור ושותים.\n\nיש פה בידוד דו-שכבתי שאמור לשמור על הקור 24 שעות. בדקתי את זה - שמתי קרח בלילה, ובבוקר אחרי הוא עדיין היה שם. מרשים.\n\nהמכסה נועל פעמיים - פעם עם הכפתור ופעם עם הידית. אפשר לזרוק לתיק בלי דאגה.\n\n[PROS]\nבואו נדבר על היתרונות:\nראשית, העיצוב פשוט מדהים. יש פה צבעים שאף מותג אחר לא מעז לעשות - \"Smooshed Blueberry\", \"Shy Marshmallow\" - השמות לבד שווים את הכסף.\n\nשנית, הקש המוסתר. בניגוד ל-Stanley שהקש שלו חשוף לכל החיידקים בעולם, פה הוא מוגן בתוך המכסה.\n\nומשתמשים כותבים: \"הפלתי אותו לנהר, הוא שרד\" ו\"הדבר הכי טוב שקניתי השנה\".\n\n[CONS]\nעכשיו בואו נהיה כנים. יש פה כמה דברים שצריך לדעת:\nאחד - זה לא למשקאות חמים. הקש לא מתאים לזה.\nשניים - הגרסאות הגדולות לא נכנסות למתקן כוסות ברכב. ה-24 אונקיות בקושי נכנס.\nשלוש - צריך לנקות לפחות פעם בשבוע. יש חלקי סיליקון שיכולים לתפוס עובש אם מזניחים.\n\n[VERDICT]\nאז האם זה שווה את הכסף? \nבהחלט כן. במחיר של 28 דולר, אתם מקבלים בקבוק עם פיצ\u0027רים של בקבוקים ב-50 דולר. האיכות מעולה, העיצוב מדהים, והשימושיות פשוט הכי נוחה שניסיתי.\n\nהציון שלי: 8.5 מתוך 10. נקודה וחצי הורדתי על הגודל שלא תמיד מתאים ועל הניקיון התדיר.\n\n[CTA]\nאם אתם רוצים לרכוש - יש לינק בתיאור עם המחיר הכי טוב שמצאתי.\nאהבתם? תנו לייק ותירשמו לערוץ. יש לי עוד המון סקירות כאלה בדרך.\nנתראה בסרטון הבא!\n"

/-- The `sections` field of `get_example_script`: the fixture parsed by
`_parse_script_sections`. -/
def get_example_script_sections : List (PyStr × PyStr) :=
  _parse_script_sections EXAMPLE_SCRIPT_HEBREW.data

/-- `ProductData` of `product_scraper.py` (floats modelled as rationals). -/
structure ProductData where
  name : String
  brand : String
  price : ℚ
  currency : String
  rating : ℚ
  review_count : ℕ
  asin : String
  url : String
  images : List String
  features : List String
  pros : List String
  cons : List String
  description : String
  specs : List (String × String)

/-- The single pre-collected product record `OWALA_FREESIP_24OZ`. -/
def OWALA_FREESIP_24OZ : ProductData where
  name := "Owala FreeSip Insulated Stainless Steel Water Bottle"
  brand := "Owala"
  price := (27.99 : ℚ)
  currency := "USD"
  rating := (4.8 : ℚ)
  review_count := 150000
  asin := "B085DTZQNZ"
  url := "https://www.amazon.com/dp/B085DTZQNZ"
  images := ["https://m.media-amazon.com/images/I/61JUu5tn8GL._AC_SL1500_.jpg",
     "https://m.media-amazon.com/images/I/71wqmxNiAML._AC_SL1500_.jpg",
     "https://m.media-amazon.com/images/I/71PjcvBRr5L._AC_SL1500_.jpg"]
  features := ["פטנט FreeSip - שתייה דרך קש או גמיעה ישירה",
     "בידוד דו-שכבתי - שומר קור עד 24 שעות",
     "מכסה עם נעילה כפולה - אטום לחלוטין",
     "ידית נשיאה נוחה שמשמשת גם כמנעול",
     "פתח רחב לניקוי קל והכנסת קרח",
     "מתאים למתקן כוסות ברכב (24oz)",
     "ללא BPA, עופרת, ופתלטים",
     "מכסה בטוח למדיח כלים"]
  pros := ["עיצוב ייחודי - אפשר לשתות מקש או ישירות בלי לפתוח מכסה",
     "אטימות מושלמת - אפשר לזרוק לתיק בלי דאגה",
     "שומר קר מעולה - קרח נשאר יותר מיום שלם",
     "ויראלי בטיקטוק - 272 מיליון צפיות בהאשטאג",
     "מגוון צבעים ועיצובים מטורפים",
     "קש מוסתר ומוגן מחיידקים",
     "נוח לאחיזה - יש שקעים בגוף הבקבוק",
     "מחיר סביר ביחס למתחרים (Hydro Flask, Stanley)",
     "אחריות לכל החיים מהיצרן"]
  cons := ["לא מתאים למשקאות חמים או מוגזים",
     "הגרסאות הגדולות (32oz, 40oz) לא נכנסות למתקן כוסות",
     "צריך לנקות לעיתים קרובות - עלול להצטבר עובש בחלקי הסיליקון",
     "קצת כבד בהשוואה לבקבוקי פלסטיק",
     "המכסה נפתח בכוח - צריך להיזהר שלא לפגוע בעצמך",
     "הציפוי עלול להישחק עם הזמן",
     "הדפסים לא עמידים למדיח כלים"]
  description := "\n    בקבוק המים Owala FreeSip הוא אחד המוצרים הויראליים ביותר בטיקטוק, \n    עם למעלה מ-272 מיליון צפיות בהאשטאג #owala. \n    \n    מה שמייחד אותו מכל בקבוק אחר הוא הפטנט הייחודי FreeSip - \n    פתח כפול שמאפשר לשתות גם דרך קש מובנה וגם לגמוע ישירות, \n    בלי צורך לפתוח או להחליף מכסים.\n    \n    הבקבוק עשוי מנירוסטה עם בידוד דו-שכבתי שאמור לשמור על המשקאות \n    קרים עד 24 שעות. במבחנים שנעשו, הבקבוק אכן עמד בהבטחה הזו.\n    \n    זמין בשלושה גדלים: 24oz, 32oz, ו-40oz, ובמגוון צבעים מטורף \n    עם שמות יצירתיים כמו \"Shy Marshmallow\", \"Smooshed Blueberry\", \n    ו-\"Very Very Dark\".\n    "
  specs := [("נפח", "24 אונקיות (710 מ\"ל)"),
     ("גובה", "10.26 אינץ\u0027 (26 ס\"מ)"),
     ("קוטר", "3.12 אינץ\u0027 (7.9 ס\"מ)"),
     ("משקל", "כ-400 גרם"),
     ("חומר", "נירוסטה 18/8 + פלסטיק ללא BPA"),
     ("בידוד", "דו-שכבתי (Double-wall)"),
     ("שמירת קור", "עד 24 שעות"),
     ("מדיח כלים", "מכסה בלבד"),
     ("אחריות", "לכל החיים")]

/-- Python `d.get(k, default)` on a string-keyed mapping. -/
def dictGet (d : List (String × String)) (k dflt : String) : String :=
  ((d.find? (fun p => p.1 == k)).map Prod.snd).getD dflt

/-- `get_product_data`: look up the identifier in the static table, falling
back to the default record when it is absent. -/
def get_product_data (product_id : String) : ProductData :=
  ((([("owala_freesip", OWALA_FREESIP_24OZ)] : List (String × ProductData)).find?
    (fun p => p.1 == product_id)).map Prod.snd).getD OWALA_FREESIP_24OZ

/-- The `images_list` expression of `generate_storyboard`. -/
def images_block (product_images : List String) : String :=
  if product_images.isEmpty then "  [Add product images]"
  else String.intercalate "\n" (((product_images.take 5).enum).map
    (fun p => "  " ++ toString (p.1 + 1) ++ ". " ++ p.2))

/-- The `pros_list` expression of `generate_storyboard`. -/
def pros_block (pros : List String) : String :=
  String.intercalate "\n" ((pros.take 5).map (fun p => "  ✓ " ++ p))

/-- The `cons_list` expression of `generate_storyboard`. -/
def cons_block (cons : List String) : String :=
  String.intercalate "\n" ((cons.take 5).map (fun c => "  ✗ " ++ c))

/-- `SimpleVideoGenerator.generate_storyboard`, as the markdown text it writes
(the score, a float in the source, is modelled as a rational; its exact
rendering is immaterial to the properties below). -/
def generate_storyboard (product_name : String) (product_images : List String)
    (script_sections : List (String × String)) (pros cons : List String)
    (score : ℚ) : String :=
  "# Video Storyboard: " ++ product_name ++
  "\n\n## Technical Specs\n- Resolution: 1920x1080\n- FPS: 30\n- Duration: ~3 minutes\n\n---\n\n## Scene 1: Title (0:00-0:05)\nText: \"" ++
  product_name ++
  "\"\n\n## Scene 2: Hook (0:05-0:15)\n" ++
  dictGet script_sections "hook" "[Hook]" ++
  "\n\n## Scene 3: Showcase (0:15-0:30)\nImages:\n" ++
  images_block product_images ++
  "\n\nScript:\n" ++
  dictGet script_sections "intro" "[Intro]" ++
  "\n\n## Scene 4: Features (0:30-1:15)\n" ++
  dictGet script_sections "features" "[Features]" ++
  "\n\n## Scene 5: Pros (1:15-1:45)\n" ++
  pros_block pros ++
  "\n\n" ++
  dictGet script_sections "pros" "[Pros script]" ++
  "\n\n## Scene 6: Cons (1:45-2:10)\n" ++
  cons_block cons ++
  "\n\n" ++
  dictGet script_sections "cons" "[Cons script]" ++
  "\n\n## Scene 7: Verdict (2:10-2:40)\nScore: " ++
  toString score ++
  "/10\n\n" ++
  dictGet script_sections "verdict" "[Verdict]" ++
  "\n\n## Scene 8: CTA (2:40-3:00)\n" ++
  dictGet script_sections "cta" "[CTA]" ++
  "\n\n---\n## Assets Needed\n- Product images\n- Voice-over MP3\n- Background music\n"

/-- Substring containment at the `String` level. -/
def hasSubStr (pat s : String) : Bool := hasSub pat.data s.data

/-- `VoiceGenerator.get_character_count`. -/
def get_character_count (text : String) : ℕ := text.length

/-- The default `price_per_1k_chars = 0.30` argument of `estimate_cost`. -/
def default_price_per_1k : ℚ := 0.30

/-- `VoiceGenerator.estimate_cost` (floats modelled as rationals). -/
def estimate_cost (text : String) (price_per_1k_chars : ℚ) : ℚ :=
  ((get_character_count text : ℚ) / 1000) * price_per_1k_chars

/-- `MockVoiceGenerator.estimate_cost`: the same formula as the real variant
(the printing side effect has no bearing on the returned value). -/
def mock_estimate_cost (text : String) (price_per_1k_chars : ℚ) : ℚ :=
  ((text.length : ℚ) / 1000) * price_per_1k_chars

/-- The seven bracketed placeholder labels of the storyboard script slots. -/
def storyboard_placeholders : List String :=
  ["[Hook]", "[Intro]", "[Features]", "[Pros script]", "[Cons script]",
   "[Verdict]", "[CTA]"]

/-- The eight scene headers of the storyboard document. -/
def storyboard_scene_headers : List String :=
  ["## Scene 1: Title", "## Scene 2: Hook", "## Scene 3: Showcase",
   "## Scene 4: Features", "## Scene 5: Pros", "## Scene 6: Cons",
   "## Scene 7: Verdict", "## Scene 8: CTA"]

/-! ### Helper lemmas about the string primitives -/

theorem startsWithSeq_iff {s p : PyStr} :
    startsWithSeq s p = true ↔ ∃ r, s = p ++ r := by
  induction p generalizing s with
  | nil => simp [startsWithSeq]
  | cons c cs ih =>
    cases s with
    | nil => simp [startsWithSeq]
    | cons x xs =>
      simp only [startsWithSeq, Bool.and_eq_true, decide_eq_true_eq, ih,
        List.cons_append, List.cons.injEq]
      constructor
      · rintro ⟨rfl, r, rfl⟩
        exact ⟨r, rfl, rfl⟩
      · rintro ⟨r, rfl, rfl⟩
        exact ⟨rfl, r, rfl⟩

theorem hasSub_iff {pat s : PyStr} :
    hasSub pat s = true ↔ ∃ l r, s = l ++ pat ++ r := by
  induction s with
  | nil =>
    simp only [hasSub, startsWithSeq_iff]
    constructor
    · rintro ⟨r, h⟩
      exact ⟨[], r, by simpa using h⟩
    · rintro ⟨l, r, h⟩
      rcases List.append_eq_nil.mp h.symm with ⟨h1, rfl⟩
      rcases List.append_eq_nil.mp h1 with ⟨rfl, rfl⟩
      exact ⟨[], rfl⟩
  | cons x xs ih =>
    simp only [hasSub, Bool.or_eq_true, startsWithSeq_iff, ih]
    constructor
    · rintro (⟨r, h⟩ | ⟨l, r, h⟩)
      · exact ⟨[], r, by simpa using h⟩
      · exact ⟨x :: l, r, by simp [h]⟩
    · rintro ⟨l, r, h⟩
      cases l with
      | nil => exact Or.inl ⟨r, by simpa using h⟩
      | cons y l' =>
        simp only [List.cons_append, List.cons.injEq] at h
        exact Or.inr ⟨l', r, h.2⟩

theorem hasSub_append_right {pat b : PyStr} (a : PyStr) (h : hasSub pat b = true) :
    hasSub pat (a ++ b) = true := by
  rcases hasSub_iff.mp h with ⟨l, r, rfl⟩
  exact hasSub_iff.mpr ⟨a ++ l, r, by simp⟩

theorem hasSub_append_left {pat a : PyStr} (b : PyStr) (h : hasSub pat a = true) :
    hasSub pat (a ++ b) = true := by
  rcases hasSub_iff.mp h with ⟨l, r, rfl⟩
  exact hasSub_iff.mpr ⟨l, r ++ b, by simp⟩

theorem mem_of_hasSub {pat s : PyStr} (h : hasSub pat s = true) {c : Char}
    (hc : c ∈ pat) : c ∈ s := by
  rcases hasSub_iff.mp h with ⟨l, r, rfl⟩
  simp [hc]

theorem pyUpperChar_of_space {c : Char} (h : isSpace c = true) : pyUpperChar c = c := by
  unfold pyUpperChar
  cases hf : casePairs.find? (fun q => q.1 = c) with
  | none => rfl
  | some q =>
    have h1 : q.1 = c := by simpa using List.find?_some hf
    have h2 : isSpace q.1 = false := by
      have hall : ∀ p ∈ casePairs, isSpace p.1 = false := by decide
      exact hall q (List.mem_of_find?_eq_some hf)
    rw [h1] at h2
    rw [h2] at h
    cases h

theorem pyUpperChar_eq_rbracket {c : Char} (h : pyUpperChar c = ']') : c = ']' := by
  unfold pyUpperChar at h
  cases hf : casePairs.find? (fun q => q.1 = c) with
  | none => rw [hf] at h; exact h
  | some q =>
    rw [hf] at h
    have h2 : q.2 ≠ ']' := by
      have hall : ∀ p ∈ casePairs, p.2 ≠ ']' := by decide
      exact hall q (List.mem_of_find?_eq_some hf)
    exact absurd h h2

theorem dropEndSpace_cons (c : Char) (cs : PyStr) :
    dropEndSpace (c :: cs) =
      if (dropEndSpace cs).isEmpty && isSpace c then [] else c :: dropEndSpace cs := rfl

theorem dropEndSpace_eq_nil_iff {s : PyStr} :
    dropEndSpace s = [] ↔ ∀ c ∈ s, isSpace c = true := by
  induction s with
  | nil => simp [dropEndSpace]
  | cons c cs ih =>
    rw [dropEndSpace_cons]
    split
    next hcond =>
      rw [Bool.and_eq_true, List.isEmpty_iff] at hcond
      constructor
      · intro _ d hd
        rcases List.mem_cons.mp hd with rfl | hd'
        · exact hcond.2
        · exact ih.mp hcond.1 d hd'
      · intro _; rfl
    next hcond =>
      rw [Bool.and_eq_true] at hcond
      constructor
      · intro h; cases h
      · intro hall
        exfalso
        apply hcond
        refine ⟨?_, hall c (List.mem_cons_self _ _)⟩
        rw [List.isEmpty_iff]
        exact ih.mpr fun d hd => hall d (List.mem_cons_of_mem _ hd)

theorem dropEndSpace_idem (s : PyStr) : dropEndSpace (dropEndSpace s) = dropEndSpace s := by
  induction s with
  | nil => rfl
  | cons c cs ih =>
    rw [dropEndSpace_cons]
    split
    next => rfl
    next hcond =>
      rw [dropEndSpace_cons, ih, if_neg hcond]

theorem mem_of_mem_dropEndSpace {c : Char} {s : PyStr} (h : c ∈ dropEndSpace s) : c ∈ s := by
  induction s with
  | nil => simp [dropEndSpace] at h
  | cons x xs ih =>
    rw [dropEndSpace_cons] at h
    split at h
    next => cases h
    next =>
      rcases List.mem_cons.mp h with rfl | h'
      · exact List.mem_cons_self _ _
      · exact List.mem_cons_of_mem _ (ih h')

theorem nonspace_mem_dropEndSpace {c : Char} {s : PyStr} (hc : isSpace c = false)
    (h : c ∈ s) : c ∈ dropEndSpace s := by
  induction s with
  | nil => cases h
  | cons x xs ih =>
    rw [dropEndSpace_cons]
    split
    next hcond =>
      exfalso
      rw [Bool.and_eq_true, List.isEmpty_iff] at hcond
      have hall := dropEndSpace_eq_nil_iff.mp hcond.1
      rcases List.mem_cons.mp h with rfl | h'
      · rw [hcond.2] at hc; cases hc
      · rw [hall c h'] at hc; cases hc
    next =>
      rcases List.mem_cons.mp h with rfl | h'
      · exact List.mem_cons_self _ _
      · exact List.mem_cons_of_mem _ (ih h')

theorem pyStrip_eq_nil_iff {s : PyStr} :
    pyStrip s = [] ↔ ∀ c ∈ s, isSpace c = true := by
  unfold pyStrip
  rw [dropEndSpace_eq_nil_iff]
  constructor
  · intro h c hc
    by_cases hsp : isSpace c = true
    · exact hsp
    · have hc' : c ∈ List.takeWhile isSpace s ++ List.dropWhile isSpace s := by
        rw [List.takeWhile_append_dropWhile]; exact hc
      rcases List.mem_append.mp hc' with h1 | h2
      · exact absurd (List.mem_takeWhile_imp h1) hsp
      · exact h c h2
  · intro h c hc
    exact h c ((List.dropWhile_sublist _).mem hc)

theorem mem_of_mem_pyStrip {c : Char} {s : PyStr} (h : c ∈ pyStrip s) : c ∈ s :=
  (List.dropWhile_sublist _).mem (mem_of_mem_dropEndSpace h)

theorem pyStrip_ne_nil {s : PyStr} {c : Char} (hc : c ∈ s) (hsp : isSpace c = false) :
    pyStrip s ≠ [] := by
  intro h
  rw [pyStrip_eq_nil_iff.mp h c hc] at hsp
  cases hsp

theorem dropWhile_cons_head {p : Char → Bool} {l : PyStr} {c : Char} {cs : PyStr}
    (h : l.dropWhile p = c :: cs) : p c = false := by
  induction l with
  | nil => cases h
  | cons x xs ih =>
    rw [List.dropWhile_cons] at h
    split at h
    · exact ih h
    · next hx =>
      injection h with h1 _
      subst h1
      exact Bool.eq_false_iff.mpr hx

theorem pyStrip_idem (s : PyStr) : pyStrip (pyStrip s) = pyStrip s := by
  unfold pyStrip
  have h1 : List.dropWhile isSpace (dropEndSpace (List.dropWhile isSpace s)) =
      dropEndSpace (List.dropWhile isSpace s) := by
    cases hu : List.dropWhile isSpace s with
    | nil => simp [dropEndSpace]
    | cons c cs =>
      have hc : isSpace c = false := dropWhile_cons_head hu
      rw [dropEndSpace_cons]
      split
      · rfl
      · exact List.dropWhile_cons_of_neg (by simp [hc])
  rw [h1, dropEndSpace_idem]

theorem dropWhile_append_nonblank {t r : PyStr} {c : Char} (hc : c ∈ t)
    (hsp : isSpace c = false) :
    (t ++ r).dropWhile isSpace = t.dropWhile isSpace ++ r := by
  rw [List.dropWhile_append]
  have hne : t.dropWhile isSpace ≠ [] := by
    intro h
    rw [List.dropWhile_eq_nil_iff.mp h c hc] at hsp
    cases hsp
  simp [List.isEmpty_iff, hne]

theorem dropEndSpace_append (t : PyStr) {r : PyStr} (h : dropEndSpace r ≠ []) :
    dropEndSpace (t ++ r) = t ++ dropEndSpace r := by
  induction t with
  | nil => rfl
  | cons c cs ih =>
    rw [List.cons_append, dropEndSpace_cons, ih]
    have h2 : ((cs ++ dropEndSpace r : PyStr)).isEmpty = false := by
      rw [Bool.eq_false_iff]
      intro hcon
      rw [List.isEmpty_iff] at hcon
      exact h (List.append_eq_nil.mp hcon).2
    simp [h2]

theorem splitOnChar_cons (c x : Char) (xs : PyStr) :
    splitOnChar c (x :: xs) =
      if x = c then [] :: splitOnChar c xs
      else
        match splitOnChar c xs with
        | [] => [[x]]
        | y :: ys => (x :: y) :: ys := rfl

theorem splitOnChar_ne_nil (c : Char) (s : PyStr) : splitOnChar c s ≠ [] := by
  induction s with
  | nil => simp [splitOnChar]
  | cons x xs ih =>
    rw [splitOnChar_cons]
    split
    · simp
    · cases hr : splitOnChar c xs with
      | nil => simp
      | cons y ys => simp

theorem splitOnChar_of_not_mem {c : Char} {s : PyStr} (h : c ∉ s) : splitOnChar c s = [s] := by
  induction s with
  | nil => rfl
  | cons x xs ih =>
    rw [splitOnChar_cons]
    have hx : ¬ x = c := fun hh => h (hh ▸ List.mem_cons_self x xs)
    rw [if_neg hx, ih (fun hh => h (List.mem_cons_of_mem _ hh))]

theorem splitOnChar_append {c : Char} {a : PyStr} (b : PyStr) (h : c ∉ a) :
    splitOnChar c (a ++ c :: b) = a :: splitOnChar c b := by
  induction a with
  | nil => simp [splitOnChar_cons]
  | cons x xs ih =>
    rw [List.cons_append, splitOnChar_cons]
    have hx : ¬ x = c := fun hh => h (hh ▸ List.mem_cons_self x xs)
    rw [if_neg hx, ih (fun hh => h (List.mem_cons_of_mem _ hh))]

theorem splitOnChar_not_mem (c : Char) (s : PyStr) : ∀ l ∈ splitOnChar c s, c ∉ l := by
  induction s with
  | nil =>
    intro l hl
    simp only [splitOnChar, List.mem_singleton] at hl
    subst hl
    simp
  | cons x xs ih =>
    intro l hl
    rw [splitOnChar_cons] at hl
    split at hl
    · rcases List.mem_cons.mp hl with rfl | h'
      · simp
      · exact ih l h'
    · next hx =>
      cases hr : splitOnChar c xs with
      | nil => exact absurd hr (splitOnChar_ne_nil _ _)
      | cons y ys =>
        rw [hr] at hl
        rcases List.mem_cons.mp hl with rfl | h'
        · intro hmem
          rcases List.mem_cons.mp hmem with rfl | hmem'
          · exact hx rfl
          · exact ih y (hr ▸ List.mem_cons_self y ys) hmem'
        · exact ih l (hr ▸ List.mem_cons_of_mem _ h')

theorem joinNL_single (a : PyStr) : joinNL [a] = a := rfl

theorem joinNL_cons_cons (a b : PyStr) (rest : List PyStr) :
    joinNL (a :: b :: rest) = a ++ '\n' :: joinNL (b :: rest) := rfl

theorem joinNL_splitOnChar (s : PyStr) : joinNL (splitOnChar '\n' s) = s := by
  induction s with
  | nil => rfl
  | cons x xs ih =>
    rw [splitOnChar_cons]
    split
    · next hx =>
      subst hx
      cases hr : splitOnChar '\n' xs with
      | nil => exact absurd hr (splitOnChar_ne_nil _ _)
      | cons y ys =>
        rw [hr] at ih
        rw [joinNL_cons_cons, ih]
        rfl
    · next hx =>
      cases hr : splitOnChar '\n' xs with
      | nil => exact absurd hr (splitOnChar_ne_nil _ _)
      | cons y ys =>
        rw [hr] at ih
        cases ys with
        | nil =>
          rw [joinNL_single] at ih
          rw [joinNL_single, ih]
        | cons z zs =>
          rw [joinNL_cons_cons] at ih
          rw [joinNL_cons_cons, List.cons_append, ih]

theorem splitOnChar_joinNL {ls : List PyStr} (h : ls ≠ [])
    (hn : ∀ l ∈ ls, '\n' ∉ l) : splitOnChar '\n' (joinNL ls) = ls := by
  induction ls with
  | nil => cases h rfl
  | cons t rest ih =>
    cases rest with
    | nil => rw [joinNL_single]; exact splitOnChar_of_not_mem (hn t (List.mem_cons_self _ _))
    | cons u rest' =>
      rw [joinNL_cons_cons,
        splitOnChar_append (joinNL (u :: rest')) (hn t (List.mem_cons_self _ _)),
        ih (by simp) (fun l hl => hn l (List.mem_cons_of_mem _ hl))]

theorem mem_joinNL {c : Char} {t : PyStr} {ts : List PyStr} (ht : t ∈ ts) (hc : c ∈ t) :
    c ∈ joinNL ts := by
  induction ts with
  | nil => cases ht
  | cons a rest ih =>
    cases rest with
    | nil =>
      rw [List.mem_singleton] at ht
      subst ht
      exact hc
    | cons b rest' =>
      rw [joinNL_cons_cons]
      rcases List.mem_cons.mp ht with rfl | ht'
      · exact List.mem_append_left _ hc
      · exact List.mem_append_right _ (List.mem_cons_of_mem _ (ih ht'))

theorem afterFirst_append {c : Char} {l : PyStr} (r : PyStr) (h : c ∉ l) :
    afterFirst c (l ++ c :: r) = some r := by
  induction l with
  | nil => simp [afterFirst]
  | cons x xs ih =>
    rw [List.cons_append, afterFirst]
    have hx : ¬ x = c := fun hh => h (hh ▸ List.mem_cons_self x xs)
    rw [if_neg hx]
    exact ih (fun hh => h (List.mem_cons_of_mem _ hh))

theorem first_occurrence {c : Char} {s : PyStr} (h : c ∈ s) :
    ∃ l r, s = l ++ c :: r ∧ c ∉ l := by
  induction s with
  | nil => cases h
  | cons x xs ih =>
    by_cases hx : x = c
    · subst hx
      exact ⟨[], xs, rfl, by simp⟩
    · rcases ih (by rcases List.mem_cons.mp h with rfl | h'; exact absurd rfl hx; exact h')
        with ⟨l, r, rfl, hl⟩
      refine ⟨x :: l, r, rfl, ?_⟩
      intro hmem
      rcases List.mem_cons.mp hmem with rfl | hmem'
      · exact hx rfl
      · exact hl hmem'

theorem mem_of_afterFirst {c : Char} {s r : PyStr} (h : afterFirst c s = some r) :
    ∀ d ∈ r, d ∈ s := by
  induction s with
  | nil => cases h
  | cons x xs ih =>
    rw [afterFirst] at h
    split at h
    · injection h with h1
      subst h1
      exact fun d hd => List.mem_cons_of_mem _ hd
    · exact fun d hd => List.mem_cons_of_mem _ (ih h d hd)

theorem mem_pySplit1Last {d c : Char} {s : PyStr} (h : d ∈ pySplit1Last c s) : d ∈ s := by
  unfold pySplit1Last at h
  cases hf : afterFirst c s with
  | none => rw [hf] at h; exact h
  | some r =>
    rw [hf] at h
    exact mem_of_afterFirst hf d h

theorem pySplit1Last_of_first {c : Char} {l r : PyStr} (h : c ∉ l) :
    pySplit1Last c (l ++ c :: r) = r := by
  unfold pySplit1Last
  rw [afterFirst_append r h]
  rfl

theorem mem_dictInsert {d : List (PyStr × PyStr)} {k v : PyStr} {kv : PyStr × PyStr}
    (h : kv ∈ dictInsert d k v) : kv ∈ d ∨ kv = (k, v) := by
  induction d with
  | nil =>
    rw [dictInsert, List.mem_singleton] at h
    exact Or.inr h
  | cons p rest ih =>
    rw [dictInsert] at h
    split at h
    · rcases List.mem_cons.mp h with rfl | h'
      · exact Or.inr rfl
      · exact Or.inl (List.mem_cons_of_mem _ h')
    · rcases List.mem_cons.mp h with rfl | h'
      · exact Or.inl (List.mem_cons_self _ _)
      · rcases ih h' with hin | hkv
        · exact Or.inl (List.mem_cons_of_mem _ hin)
        · exact Or.inr hkv

theorem find?_first_decomp {α : Type} (p : α → Bool) (l : List α) (a : α)
    (h : l.find? p = some a) :
    ∃ pre post, l = pre ++ a :: post ∧ ∀ b ∈ pre, p b = false := by
  induction l with
  | nil => cases h
  | cons x xs ih =>
    by_cases hx : p x = true
    · rw [List.find?_cons_of_pos _ hx] at h
      injection h with h1
      subst h1
      exact ⟨[], xs, rfl, by simp⟩
    · rw [List.find?_cons_of_neg _ hx] at h
      rcases ih h with ⟨pre, post, rfl, hpre⟩
      refine ⟨x :: pre, post, rfl, ?_⟩
      intro b hb
      rcases List.mem_cons.mp hb with rfl | hb'
      · exact Bool.eq_false_iff.mpr hx
      · exact hpre b hb'

theorem pyUpper_map_mem {c : Char} {l : PyStr} (h : c ∈ pyUpper l) :
    ∃ d ∈ l, pyUpperChar d = c := by
  rcases List.mem_map.mp h with ⟨d, hd, hdc⟩
  exact ⟨d, hd, hdc⟩

theorem findMarker_of_blank {l : PyStr} (h : pyStrip l = []) : findMarker l = none := by
  unfold findMarker
  cases hf : section_markers.find? (markerIn l) with
  | none => rfl
  | some m =>
    exfalso
    have hp : markerIn l m = true := List.find?_some hf
    have hlb : ('[' : Char) ∈ pyUpper l :=
      mem_of_hasSub hp (by simp [bracketed])
    rcases pyUpper_map_mem hlb with ⟨d, hd, hdc⟩
    have hsp : isSpace d = true := pyStrip_eq_nil_iff.mp h d hd
    rw [pyUpperChar_of_space hsp] at hdc
    subst hdc
    simp [isSpace] at hsp

theorem rbracket_mem_of_findMarker {line m : PyStr} (h : findMarker line = some m) :
    (']' : Char) ∈ line := by
  have hp : markerIn line m = true := List.find?_some h
  have hrb : (']' : Char) ∈ pyUpper line :=
    mem_of_hasSub hp (by simp [bracketed])
  rcases pyUpper_map_mem hrb with ⟨d, hd, hdc⟩
  rw [pyUpperChar_eq_rbracket hdc] at hd
  exact hd

theorem exists_nonspace_of_pyStrip_ne_nil {t : PyStr} (h : pyStrip t ≠ []) :
    ∃ c ∈ t, isSpace c = false := by
  by_contra hcon
  push_neg at hcon
  simp only [Bool.not_eq_false] at hcon
  exact h (pyStrip_eq_nil_iff.mpr hcon)

theorem dropWhile_isSpace_idem (l : PyStr) :
    (l.dropWhile isSpace).dropWhile isSpace = l.dropWhile isSpace := by
  cases hu : l.dropWhile isSpace with
  | nil => rfl
  | cons c cs =>
    exact List.dropWhile_cons_of_neg (by simp [dropWhile_cons_head hu])

theorem lines_dropEnd_join {ts : List PyStr} (hne : ts ≠ []) (h : GoodBuf ts) :
    ∀ l ∈ splitOnChar '\n' (dropEndSpace (joinNL ts)), pyStrip l ≠ [] := by
  induction ts with
  | nil => cases hne rfl
  | cons t rest ih =>
    cases rest with
    | nil =>
      rw [joinNL_single]
      have hnl : ('\n' : Char) ∉ dropEndSpace t :=
        fun hm => (h t (List.mem_cons_self _ _)).2 (mem_of_mem_dropEndSpace hm)
      rw [splitOnChar_of_not_mem hnl]
      intro l hl
      rw [List.mem_singleton] at hl
      subst hl
      rcases exists_nonspace_of_pyStrip_ne_nil (h t (List.mem_cons_self _ _)).1
        with ⟨c, hc, hcs⟩
      exact pyStrip_ne_nil (nonspace_mem_dropEndSpace hcs hc) hcs
    | cons u rest' =>
      have hbuf' : GoodBuf (u :: rest') := fun x hx => h x (List.mem_cons_of_mem _ hx)
      have hJne : dropEndSpace (joinNL (u :: rest')) ≠ [] := by
        rcases exists_nonspace_of_pyStrip_ne_nil (hbuf' u (List.mem_cons_self _ _)).1
          with ⟨c, hc, hcs⟩
        intro hcon
        rw [dropEndSpace_eq_nil_iff.mp hcon c
          (mem_joinNL (List.mem_cons_self _ _) hc)] at hcs
        cases hcs
      rw [joinNL_cons_cons,
        show t ++ '\n' :: joinNL (u :: rest') = (t ++ ['\n']) ++ joinNL (u :: rest') from
          by simp,
        dropEndSpace_append _ hJne,
        show (t ++ ['\n']) ++ dropEndSpace (joinNL (u :: rest')) =
          t ++ '\n' :: dropEndSpace (joinNL (u :: rest')) from by simp,
        splitOnChar_append _ (h t (List.mem_cons_self _ _)).2]
      intro l hl
      rcases List.mem_cons.mp hl with rfl | hl'
      · exact (h l (List.mem_cons_self _ _)).1
      · exact ih (by simp) hbuf' l hl'

theorem lines_pyStrip_join {ts : List PyStr} (hne : ts ≠ []) (h : GoodBuf ts) :
    ∀ l ∈ splitOnChar '\n' (pyStrip (joinNL ts)), pyStrip l ≠ [] := by
  cases ts with
  | nil => cases hne rfl
  | cons t rest =>
    cases rest with
    | nil =>
      rw [joinNL_single]
      have hnl : ('\n' : Char) ∉ pyStrip t :=
        fun hm => (h t (List.mem_cons_self _ _)).2 (mem_of_mem_pyStrip hm)
      rw [splitOnChar_of_not_mem hnl]
      intro l hl
      rw [List.mem_singleton] at hl
      subst hl
      rw [pyStrip_idem]
      exact (h t (List.mem_cons_self _ _)).1
    | cons u rest' =>
      rcases exists_nonspace_of_pyStrip_ne_nil (h t (List.mem_cons_self _ _)).1
        with ⟨c, hc, hcs⟩
      have hrw : pyStrip (joinNL (t :: u :: rest')) =
          dropEndSpace (joinNL (List.dropWhile isSpace t :: u :: rest')) := by
        unfold pyStrip
        rw [joinNL_cons_cons, joinNL_cons_cons,
          dropWhile_append_nonblank hc hcs]
      rw [hrw]
      apply lines_dropEnd_join (by simp)
      intro x hx
      rcases List.mem_cons.mp hx with rfl | hx'
      · constructor
        · unfold pyStrip
          rw [dropWhile_isSpace_idem]
          exact (h t (List.mem_cons_self _ _)).1
        · exact fun hm => (h t (List.mem_cons_self _ _)).2 ((List.dropWhile_sublist _).mem hm)
      · exact h x (List.mem_cons_of_mem _ hx')

theorem goodVal_strip_join {ts : List PyStr} (hne : ts ≠ []) (h : GoodBuf ts) :
    GoodVal (pyStrip (joinNL ts)) := by
  refine ⟨pyStrip_idem _, ?_, lines_pyStrip_join hne h⟩
  cases ts with
  | nil => cases hne rfl
  | cons t rest =>
    rcases exists_nonspace_of_pyStrip_ne_nil (h t (List.mem_cons_self _ _)).1
      with ⟨c, hc, hcs⟩
    exact pyStrip_ne_nil (mem_joinNL (List.mem_cons_self _ _) hc) hcs

theorem flush_good {st : ParseState} (h : GoodState st) :
    ∀ kv ∈ flushSections st, kv.1 ∈ allowed_keys ∧ GoodVal kv.2 := by
  unfold flushSections
  split
  · exact h.1
  · next hne =>
    intro kv hkv
    rcases mem_dictInsert hkv with hold | rfl
    · exact h.1 kv hold
    · refine ⟨h.2.1, goodVal_strip_join ?_ h.2.2⟩
      intro hcon
      rw [hcon] at hne
      exact hne rfl

theorem parseStep_none_eq {st : ParseState} {line : PyStr} (hf : findMarker line = none) :
    parseStep st line =
      if (pyStrip line).isEmpty then st
      else { st with current_text := st.current_text ++ [line] } := by
  simp [parseStep, hf]

theorem parseStep_some_eq {st : ParseState} {line m : PyStr} (hf : findMarker line = some m) :
    parseStep st line =
      { sections := flushSections st
        current_section := pyLower m
        current_text :=
          if (pyStrip (pySplit1Last ']' line)).isEmpty then []
          else [pyStrip (pySplit1Last ']' line)] } := by
  simp [parseStep, hf]

theorem pyLower_marker_allowed : ∀ m ∈ section_markers, pyLower m ∈ allowed_keys := by
  decide

theorem parseStep_good {st : ParseState} {line : PyStr} (hnl : ('\n' : Char) ∉ line)
    (h : GoodState st) : GoodState (parseStep st line) := by
  cases hf : findMarker line with
  | none =>
    rw [parseStep_none_eq hf]
    split
    · exact h
    · next hb =>
      refine ⟨h.1, h.2.1, ?_⟩
      intro t ht
      rcases List.mem_append.mp ht with ht' | ht'
      · exact h.2.2 t ht'
      · rw [List.mem_singleton] at ht'
        subst ht'
        refine ⟨?_, hnl⟩
        intro hcon
        rw [hcon] at hb
        exact hb rfl
  | some m =>
    rw [parseStep_some_eq hf]
    refine ⟨flush_good h, pyLower_marker_allowed m (List.mem_of_find?_eq_some hf), ?_⟩
    intro t ht
    split at ht
    · cases ht
    · next hb =>
      rw [List.mem_singleton] at ht
      subst ht
      constructor
      · rw [pyStrip_idem]
        intro hcon
        rw [hcon] at hb
        exact hb rfl
      · exact fun hm => hnl (mem_pySplit1Last (mem_of_mem_pyStrip hm))

theorem foldl_good (lines : List PyStr) : ∀ st : ParseState,
    (∀ l ∈ lines, ('\n' : Char) ∉ l) → GoodState st →
    GoodState (lines.foldl parseStep st) := by
  induction lines with
  | nil => exact fun st _ h => h
  | cons l ls ih =>
    intro st hnl h
    rw [List.foldl_cons]
    exact ih _ (fun x hx => hnl x (List.mem_cons_of_mem _ hx))
      (parseStep_good (hnl l (List.mem_cons_self _ _)) h)

theorem parse_good (text : PyStr) :
    ∀ kv ∈ _parse_script_sections text, kv.1 ∈ allowed_keys ∧ GoodVal kv.2 := by
  unfold _parse_script_sections
  apply flush_good
  apply foldl_good
  · exact fun l hl => splitOnChar_not_mem '\n' text l hl
  · refine ⟨?_, by decide, ?_⟩
    · intro kv hkv; cases hkv
    · intro t ht; cases ht

theorem foldl_no_marker (lines : List PyStr) : ∀ st : ParseState,
    (∀ l ∈ lines, findMarker l = none) →
    lines.foldl parseStep st =
      { st with current_text :=
          st.current_text ++ lines.filter (fun l => !(pyStrip l).isEmpty) } := by
  induction lines with
  | nil => intro st _; simp
  | cons l ls ih =>
    intro st h
    rw [List.foldl_cons, parseStep_none_eq (h l (List.mem_cons_self _ _))]
    by_cases hb : (pyStrip l).isEmpty = true
    · rw [if_pos hb, ih _ (fun x hx => h x (List.mem_cons_of_mem _ hx))]
      simp [List.filter_cons, hb]
    · rw [if_neg hb, ih _ (fun x hx => h x (List.mem_cons_of_mem _ hx))]
      simp only [List.filter_cons]
      rw [show (!(pyStrip l).isEmpty) = true from by simp [Bool.eq_false_iff.mpr hb]]
      simp

theorem reparse_core {K k v : PyStr}
    (h1 : findMarker (bracketed K) = some K)
    (h2 : pyStrip (pySplit1Last ']' (bracketed K)) = [])
    (h3 : pyLower K = k)
    (h4 : ('\n' : Char) ∉ bracketed K)
    (hv : GoodVal v)
    (hm : ∀ l ∈ splitOnChar '\n' v, findMarker l = none) :
    _parse_script_sections (bracketed K ++ '\n' :: v) = [(k, v)] := by
  unfold _parse_script_sections
  rw [splitOnChar_append _ h4, List.foldl_cons]
  have hstep :
      parseStep { sections := [], current_section := "intro".data, current_text := [] }
        (bracketed K) =
      { sections := [], current_section := k, current_text := [] } := by
    rw [parseStep_some_eq h1, h2, h3]
    simp [flushSections]
  rw [hstep, foldl_no_marker _ _ hm]
  have hfilter :
      (splitOnChar '\n' v).filter (fun l => !(pyStrip l).isEmpty) = splitOnChar '\n' v := by
    apply List.filter_eq_self.mpr
    intro l hl
    simp only [Bool.not_eq_true', List.isEmpty_eq_false]
    exact hv.2.2 l hl
  rw [hfilter]
  unfold flushSections
  rw [if_neg (by simp only [List.nil_append, List.isEmpty_iff]; exact splitOnChar_ne_nil '\n' v)]
  simp only [List.nil_append]
  rw [joinNL_splitOnChar, hv.1]
  rfl

theorem reparse_single {k v : PyStr} (hk : k ∈ allowed_keys) (hv : GoodVal v)
    (hm : ∀ l ∈ splitOnChar '\n' v, findMarker l = none) :
    _parse_script_sections (bracketed (pyUpper k) ++ '\n' :: v) = [(k, v)] := by
  fin_cases hk <;>
    exact reparse_core (by decide) (by decide) (by decide) (by decide) hv hm

/-! ### Claims -/

/-- C1 counterexample: on the line `x] [HOOK] tail` the hook marker is matched,
the text following the matched marker's closing bracket is ` tail` (which
strips to `tail`), yet the new section's buffer is seeded with `[HOOK] tail` —
the text after the *first* `]` of the line — and not with `tail`. -/
theorem C1_counterexample :
    _parse_script_sections "x] [HOOK] tail".data =
      [("hook".data, "[HOOK] tail".data)] ∧
    pyStrip " tail".data = "tail".data ∧
    ("[HOOK] tail".data : PyStr) ≠ "tail".data := by decide

/-- C1 (amended): when a line matches a marker, the parser seeds the new
section's buffer with the text following the first `]` character of the line,
stripped (and leaves the buffer empty when that remainder strips to nothing);
for lines such as `[HOOK] Some trailing text`, whose first `]` is the matched
marker's closing bracket, this is exactly the trailing text. -/
theorem C1_seed_after_first_rbracket (st : ParseState) (line m : PyStr)
    (h : findMarker line = some m) :
    ∃ l r, line = l ++ ']' :: r ∧ (']' : Char) ∉ l ∧
      (parseStep st line).current_section = pyLower m ∧
      (parseStep st line).current_text =
        (if (pyStrip r).isEmpty then [] else [pyStrip r]) := by
  rcases first_occurrence (rbracket_mem_of_findMarker h) with ⟨l, r, rfl, hl⟩
  refine ⟨l, r, rfl, hl, ?_, ?_⟩
  · rw [parseStep_some_eq h]
  · rw [parseStep_some_eq h, pySplit1Last_of_first hl]

/-- C1 witness: the amended statement instantiated on the spec's example line
`[HOOK] Some trailing text`. -/
theorem C1_seed_witness :
    ∃ l r, "[HOOK] Some trailing text".data = l ++ ']' :: r ∧ (']' : Char) ∉ l ∧
      (parseStep { sections := [], current_section := "intro".data, current_text := [] }
        "[HOOK] Some trailing text".data).current_section = pyLower "HOOK".data ∧
      (parseStep { sections := [], current_section := "intro".data, current_text := [] }
        "[HOOK] Some trailing text".data).current_text =
        (if (pyStrip r).isEmpty then [] else [pyStrip r]) :=
  C1_seed_after_first_rbracket
    { sections := [], current_section := "intro".data, current_text := [] }
    "[HOOK] Some trailing text".data "HOOK".data (by decide)

/-- C2 counterexample: the empty input contains zero recognized markers yet
`parse` returns zero entries rather than exactly one; and on the single
non-blank line `  a` the returned value is the stripped `a`, not the non-blank
line `  a` joined as-is. -/
theorem C2_counterexample :
    (∀ l ∈ splitOnChar '\n' ("".data : PyStr), findMarker l = none) ∧
    _parse_script_sections "".data = [] ∧
    (∀ l ∈ splitOnChar '\n' "  a".data, findMarker l = none) ∧
    _parse_script_sections "  a".data = [("intro".data, "a".data)] ∧
    ("a".data : PyStr) ≠ "  a".data := by decide

/-- C2 (amended): for text with no recognized marker on any line and at least
one non-blank line, `parse` returns exactly one entry, keyed by the default
bucket `intro`, whose value is the non-blank lines joined by a single newline
and then stripped of leading and trailing whitespace; if every line is blank
the mapping is empty instead. -/
theorem C2_no_marker_single_bucket (text : PyStr)
    (hm : ∀ l ∈ splitOnChar '\n' text, findMarker l = none)
    (hnb : ∃ l ∈ splitOnChar '\n' text, pyStrip l ≠ []) :
    _parse_script_sections text =
      [("intro".data,
        pyStrip (joinNL ((splitOnChar '\n' text).filter
          (fun l => !(pyStrip l).isEmpty))))] := by
  unfold _parse_script_sections
  rw [foldl_no_marker _ _ hm]
  unfold flushSections
  have hne : (splitOnChar '\n' text).filter (fun l => !(pyStrip l).isEmpty) ≠ [] := by
    rcases hnb with ⟨l, hl, hlne⟩
    intro hcon
    have hmem : l ∈ (splitOnChar '\n' text).filter (fun l => !(pyStrip l).isEmpty) :=
      List.mem_filter.mpr ⟨hl, by simp only [Bool.not_eq_true', List.isEmpty_eq_false]; exact hlne⟩
    rw [hcon] at hmem
    cases hmem
  rw [if_neg (by simp only [List.nil_append, List.isEmpty_iff]; exact hne)]
  simp only [List.nil_append]
  rfl

/-- C2 witness: the amended statement instantiated on `a\n\nb`. -/
theorem C2_no_marker_witness :
    _parse_script_sections "a\n\nb".data =
      [("intro".data,
        pyStrip (joinNL ((splitOnChar '\n' "a\n\nb".data).filter
          (fun l => !(pyStrip l).isEmpty))))] :=
  C2_no_marker_single_bucket "a\n\nb".data (by decide) (by decide)

/-- C3: every key of the mapping returned by `parse` lies in the fixed
lowercase set {hook, intro, features, pros, cons, verdict, cta} (which includes
the default pre-first-marker bucket `intro`), and every key is already
lowercase — lowercasing it again changes nothing. -/
theorem C3_keys_lowercase_subset (text : PyStr) (kv : PyStr × PyStr)
    (h : kv ∈ _parse_script_sections text) :
    kv.1 ∈ allowed_keys ∧ pyLower kv.1 = kv.1 := by
  refine ⟨(parse_good text kv h).1, ?_⟩
  have hlow : ∀ x ∈ allowed_keys, pyLower x = x := by decide
  exact hlow kv.1 (parse_good text kv h).1

/-- C3 witness: the key invariant instantiated on the parse of `[HOOK] hi`. -/
theorem C3_keys_witness :
    ("hook".data, "hi".data).1 ∈ allowed_keys ∧
    pyLower ("hook".data, "hi".data).1 = ("hook".data, "hi".data).1 :=
  C3_keys_lowercase_subset "[HOOK] hi".data ("hook".data, "hi".data) (by decide)

/-- C4: when a line matches any markers, the marker `m` the parser honours is
the first one in the fixed enumeration HOOK, INTRO, FEATURES, PROS, CONS,
VERDICT, CTA whose bracketed form occurs in the line: `m` occurs in the line,
every marker strictly earlier in the enumeration does not, and the current
section switches to `m` lowercased (so no other marker on the line causes a
switch). -/
theorem C4_first_enumerated_marker_wins (st : ParseState) (line m : PyStr)
    (h : findMarker line = some m) :
    ∃ pre post, section_markers = pre ++ m :: post ∧
      markerIn line m = true ∧
      (∀ m' ∈ pre, markerIn line m' = false) ∧
      (parseStep st line).current_section = pyLower m := by
  rcases find?_first_decomp _ _ _ h with ⟨pre, post, hsm, hpre⟩
  exact ⟨pre, post, hsm, List.find?_some h, hpre, by rw [parseStep_some_eq h]⟩

/-- C4 witness: on `see [CTA] then [HOOK] now` both CTA and HOOK occur, and the
honoured marker is HOOK, the enumeration-first one, even though CTA appears
earlier in the line. -/
theorem C4_first_marker_witness :
    ∃ pre post, section_markers = pre ++ "HOOK".data :: post ∧
      markerIn "see [CTA] then [HOOK] now".data "HOOK".data = true ∧
      (∀ m' ∈ pre, markerIn "see [CTA] then [HOOK] now".data m' = false) ∧
      (parseStep { sections := [], current_section := "intro".data, current_text := [] }
        "see [CTA] then [HOOK] now".data).current_section = pyLower "HOOK".data :=
  C4_first_enumerated_marker_wins
    { sections := [], current_section := "intro".data, current_text := [] }
    "see [CTA] then [HOOK] now".data "HOOK".data (by decide)

/-- C5 counterexample: parsing `x] [HOOK] tail` returns the hook section with
text `[HOOK] tail`, but re-joining that text with its marker and parsing again
yields the entry `(hook, tail)` — not the same mapping entry — so parsing is
not idempotent as claimed. -/
theorem C5_counterexample :
    ("hook".data, "[HOOK] tail".data) ∈ _parse_script_sections "x] [HOOK] tail".data ∧
    _parse_script_sections
        (bracketed (pyUpper "hook".data) ++ '\n' :: "[HOOK] tail".data) =
      [("hook".data, "tail".data)] ∧
    ("tail".data : PyStr) ≠ "[HOOK] tail".data := by decide

/-- C5 (amended): no blank (whitespace-only or empty) line ever appears inside
any section text returned by `parse`; and re-joining a returned section's text
with its marker and parsing again yields exactly that mapping entry provided no
line of the section text itself contains a recognized marker (the proviso the
original claim lacks: a buffer seeded from text after the first `]` may contain
a marker and then gets re-split on re-parsing). -/
theorem C5_no_blank_lines_conditional_idem (text k v : PyStr)
    (h : (k, v) ∈ _parse_script_sections text) :
    (∀ l ∈ splitOnChar '\n' v, pyStrip l ≠ []) ∧
    ((∀ l ∈ splitOnChar '\n' v, findMarker l = none) →
      _parse_script_sections (bracketed (pyUpper k) ++ '\n' :: v) = [(k, v)]) := by
  have hg := parse_good text (k, v) h
  exact ⟨hg.2.2.2, fun hm => reparse_single hg.1 hg.2 hm⟩

/-- C5 witness: the amended statement instantiated on the parse of
`[HOOK] hi`, whose hook entry `hi` round-trips. -/
theorem C5_no_blank_witness :
    (∀ l ∈ splitOnChar '\n' ("hi".data : PyStr), pyStrip l ≠ []) ∧
    ((∀ l ∈ splitOnChar '\n' ("hi".data : PyStr), findMarker l = none) →
      _parse_script_sections (bracketed (pyUpper "hook".data) ++ '\n' :: "hi".data) =
        [("hook".data, "hi".data)]) :=
  C5_no_blank_lines_conditional_idem "[HOOK] hi".data "hook".data "hi".data (by decide)

/-- C7: an input consisting solely of blank (empty or whitespace-only) lines —
including the empty string — parses to the empty mapping: no entry is created
under the default bucket. -/
theorem C7_all_blank_gives_empty_mapping (text : PyStr)
    (h : ∀ l ∈ splitOnChar '\n' text, pyStrip l = []) :
    _parse_script_sections text = [] := by
  unfold _parse_script_sections
  rw [foldl_no_marker _ _ (fun l hl => findMarker_of_blank (h l hl))]
  have hfil : (splitOnChar '\n' text).filter (fun l => !(pyStrip l).isEmpty) = [] := by
    rw [List.filter_eq_nil_iff]
    intro l hl
    simp [h l hl]
  rw [hfil]
  simp [flushSections]

/-- C7 witness: the all-blank statement instantiated on ` \n\t \n`. -/
theorem C7_all_blank_witness : _parse_script_sections " \n\t \n".data = [] :=
  C7_all_blank_gives_empty_mapping " \n\t \n".data (by decide)

set_option maxRecDepth 8192 in
/-- C6: parsing the fixed example Hebrew script yields exactly seven entries,
in first-insertion key order hook, intro, features, pros, cons, verdict, cta,
each with non-empty text. -/
theorem C6_example_script_seven_sections :
    (get_example_script_sections.map Prod.fst =
      ["hook".data, "intro".data, "features".data, "pros".data, "cons".data,
       "verdict".data, "cta".data]) ∧
    ∀ kv ∈ get_example_script_sections, kv.2 ≠ [] := by
  decide

/-- C8: `get_product_data` is total (the embedding returns a record for every
identifier, mirroring `dict.get` with a default, which never raises), and any
identifier other than the known key `owala_freesip` returns a record equal
field-for-field to the one returned for `owala_freesip`. -/
theorem C8_unknown_id_returns_default (product_id : String)
    (h : product_id ≠ "owala_freesip") :
    get_product_data product_id = get_product_data "owala_freesip" := by
  unfold get_product_data
  have hb : ("owala_freesip" == product_id) = false := by
    rw [beq_eq_false_iff_ne]
    exact fun hh => h hh.symm
  simp [List.find?, hb]

/-- C8 witness: looking up the unknown identifier `stanley_quencher` returns
the default record. -/
theorem C8_unknown_id_witness :
    get_product_data "stanley_quencher" = get_product_data "owala_freesip" :=
  C8_unknown_id_returns_default "stanley_quencher" (by decide)

/-- C10: `estimate_cost` at the default price 0.30 per thousand characters is
exactly linear in character count over rational arithmetic: doubling the text
doubles the cost, the cost depends on the text only through its length, and the
placeholder variant computes the same value. -/
theorem C10_estimate_cost_linear (t u : String) (h : t.length = u.length) :
    estimate_cost (t ++ t) default_price_per_1k = 2 * estimate_cost t default_price_per_1k ∧
    estimate_cost t default_price_per_1k = estimate_cost u default_price_per_1k ∧
    mock_estimate_cost (t ++ t) default_price_per_1k =
      2 * mock_estimate_cost t default_price_per_1k := by
  unfold estimate_cost mock_estimate_cost get_character_count
  rw [String.length_append, h]
  push_cast
  constructor
  · ring
  · constructor
    · ring
    · ring

/-- C10 witness: the linearity statement instantiated on the equal-length texts
`ab` and `cd`. -/
theorem C10_estimate_cost_witness :
    estimate_cost ("ab" ++ "ab") default_price_per_1k =
      2 * estimate_cost "ab" default_price_per_1k ∧
    estimate_cost "ab" default_price_per_1k = estimate_cost "cd" default_price_per_1k ∧
    mock_estimate_cost ("ab" ++ "ab") default_price_per_1k =
      2 * mock_estimate_cost "ab" default_price_per_1k :=
  C10_estimate_cost_linear "ab" "cd" (by decide)

theorem hasSubStr_append_r (a : String) {p b : String} (h : hasSubStr p b = true) :
    hasSubStr p (a ++ b) = true := by
  unfold hasSubStr at h ⊢
  rw [String.data_append]
  exact hasSub_append_right a.data h

theorem hasSubStr_append_l {p a : String} (b : String) (h : hasSubStr p a = true) :
    hasSubStr p (a ++ b) = true := by
  unfold hasSubStr at h ⊢
  rw [String.data_append]
  exact hasSub_append_left b.data h

theorem dictGet_nil (k dflt : String) : dictGet [] k dflt = dflt := rfl

/-- C9: for every product name, image list, pros, cons and score, the
storyboard rendered with an empty sections mapping contains all seven bracketed
placeholder labels (every script slot falls back to its placeholder, never to
an empty string) and all eight scene headers — a complete eight-scene
document, produced without error (the embedding is a total function). -/
theorem C9_empty_sections_placeholders (product_name : String)
    (product_images : List String) (pros cons : List String) (score : ℚ) :
    (∀ p ∈ storyboard_placeholders,
      hasSubStr p (generate_storyboard product_name product_images [] pros cons score)
        = true) ∧
    (∀ s ∈ storyboard_scene_headers,
      hasSubStr s (generate_storyboard product_name product_images [] pros cons score)
        = true) := by
  refine ⟨?_, ?_⟩ <;> intro p hp <;> fin_cases hp <;>
    simp only [generate_storyboard, dictGet_nil] <;>
    (repeat (first | exact hasSubStr_append_r _ (by decide) | apply hasSubStr_append_l))

/-- C9 witness: the placeholder statement instantiated at concrete arguments
for one script slot and one scene header. -/
theorem C9_empty_sections_witness :
    hasSubStr "[Hook]" (generate_storyboard "Owala" [] [] [] [] (0 : ℚ)) = true ∧
    hasSubStr "## Scene 8: CTA" (generate_storyboard "Owala" [] [] [] [] (0 : ℚ)) = true :=
  ⟨(C9_empty_sections_placeholders "Owala" [] [] [] 0).1 "[Hook]" (by decide),
   (C9_empty_sections_placeholders "Owala" [] [] [] 0).2 "## Scene 8: CTA" (by decide)⟩
